import Mathlib

/-!
Verification development for the PatternStatistics trading-bot session pipeline.

Shallow embedding of `src/core/trading_sessions.py` and
`src/analysis/session_analyzer.py`:

* Instants and naive local timestamps are integers counting minutes; a
  calendar date `d : Int` combined with a wall-clock time-of-day `t : Nat`
  (minutes after local midnight, `t < 1440` for values produced by Python's
  `time` type) yields the naive timestamp `d * 1440 + t`.
* A timezone is a base UTC offset plus a finite, chronologically ordered
  list of offset transitions, each taking effect at a UTC instant.  `pytz`'s
  `localize(..., is_dst=None)` is embedded by collecting all UTC instants
  whose local reading equals the given naive timestamp: exactly one
  candidate succeeds, none raises `NonExistentTimeError`, several raise
  `AmbiguousTimeError`.
* Market data rows are OHLCV records with UTC timestamps; prices and
  volumes are rationals (the code performs only comparisons, max/min and
  sums on them).
-/

namespace PatternStats

/-- A timezone: UTC offset in minutes before the first transition, plus a
list of `(utcInstant, newOffset)` transitions in chronological order.
Embeds the timezone-database capability behind `pytz.timezone`. -/
structure Timezone where
  baseOffset : Int
  transitions : List (Int × Int)
deriving DecidableEq

/-- Offset in effect at UTC instant `u`, starting from `base` and applying
every transition whose instant is not after `u`. -/
def offsetFrom : Int → List (Int × Int) → Int → Int
  | base, [], _ => base
  | base, (t, o) :: rest, u => if u < t then base else offsetFrom o rest u

/-- UTC offset (minutes) the zone applies at UTC instant `u`. -/
def Timezone.offsetAt (tz : Timezone) (u : Int) : Int :=
  offsetFrom tz.baseOffset tz.transitions u

/-- All offsets the zone ever uses (the candidate set `pytz` searches). -/
def Timezone.offsets (tz : Timezone) : List Int :=
  tz.baseOffset :: tz.transitions.map Prod.snd

/-- The UTC instants whose local wall-clock reading is `naive`: for each
possible offset `o`, the instant `naive - o` qualifies iff the zone really
applies offset `o` there.  Duplicates are removed. -/
def Timezone.localCandidates (tz : Timezone) (naive : Int) : List Int :=
  ((tz.offsets.map (fun o => naive - o)).filter
    (fun u => u + tz.offsetAt u == naive)).dedup

/-- DST resolution failure, as raised by `tz.localize(dt, is_dst=None)`:
`pytz.exceptions.AmbiguousTimeError` / `NonExistentTimeError`. -/
inductive DstError
  | ambiguous
  | nonexistent
deriving DecidableEq

/-- Embeds `tz.localize(naive, is_dst=None)` followed by
`.astimezone(pytz.utc)`: the unique UTC instant reading `naive` on the
local clock, or a strict-DST error.  (`astimezone` does not change the
instant, so the result is directly the UTC instant.) -/
def Timezone.localizeStrict (tz : Timezone) (naive : Int) : Except DstError Int :=
  match tz.localCandidates naive with
  | [] => .error .nonexistent
  | [u] => .ok u
  | _ :: _ :: _ => .error .ambiguous

/-- `naive` falls in a repeated local hour (clocks turned back): at least
two distinct UTC instants share this local reading. -/
def Timezone.Repeated (tz : Timezone) (naive : Int) : Prop :=
  ∃ u v : Int, u ≠ v ∧ u + tz.offsetAt u = naive ∧ v + tz.offsetAt v = naive

/-- `naive` falls in a skipped local hour (clocks turned forward): no UTC
instant has this local reading. -/
def Timezone.Skipped (tz : Timezone) (naive : Int) : Prop :=
  ∀ u : Int, u + tz.offsetAt u ≠ naive

/-- `SessionDefinition` from `src/core/trading_sessions.py`: a session's
identity, exchange timezone name, and local start/end wall-clock times
(minutes after local midnight). -/
structure SessionDefinition where
  name : String
  exchange_timezone : String
  local_start_time : Nat
  local_end_time : Nat
  description : String := ""
deriving DecidableEq

/-- `ValueError` raised by `SessionDefinition.__post_init__` on an unknown
timezone name. -/
inductive ConfigError
  | unknownTimezone
deriving DecidableEq

/-- `SessionDefinition.__post_init__`: validates only that
`exchange_timezone` resolves against the timezone database `db`
(`pytz.timezone` raising `UnknownTimeZoneError` otherwise). -/
def SessionDefinition.post_init (db : String → Option Timezone)
    (sd : SessionDefinition) : Except ConfigError SessionDefinition :=
  match db sd.exchange_timezone with
  | some _ => .ok sd
  | none => .error .unknownTimezone

/-- Failure of session-boundary resolution. -/
inductive ResolveError
  | dstAmbiguous
  | dstNonexistent
  | unknownZone
deriving DecidableEq

/-- Map a localization failure to the resolver's error. -/
def DstError.toResolve : DstError → ResolveError
  | .ambiguous => .dstAmbiguous
  | .nonexistent => .dstNonexistent

/-- `datetime.combine(target_date, t)` as a naive timestamp in minutes. -/
def combine (d : Int) (t : Nat) : Int := d * 1440 + (t : Int)

/-- Line 45 of `trading_sessions.py`:
`datetime.combine(target_date, session_def.local_start_time)`. -/
def local_start_dt_naive (sd : SessionDefinition) (d : Int) : Int :=
  combine d sd.local_start_time

/-- Lines 49-52 of `trading_sessions.py`: the naive local end timestamp,
anchored to `target_date + 1` when the session crosses midnight
(`local_end_time < local_start_time`), to `target_date` otherwise. -/
def local_end_dt_naive (sd : SessionDefinition) (d : Int) : Int :=
  if sd.local_end_time < sd.local_start_time then
    combine (d + 1) sd.local_end_time
  else
    combine d sd.local_end_time

/-- `get_utc_session_boundaries_for_date` from
`src/core/trading_sessions.py`: looks up the timezone, strictly localizes
the naive start and end timestamps, and returns both as UTC instants. -/
def get_utc_session_boundaries_for_date (db : String → Option Timezone)
    (session_def : SessionDefinition) (target_date : Int) :
    Except ResolveError (Int × Int) :=
  match db session_def.exchange_timezone with
  | none => .error .unknownZone
  | some tz =>
    match tz.localizeStrict (local_start_dt_naive session_def target_date) with
    | .error e => .error e.toResolve
    | .ok start_utc_dt =>
      match tz.localizeStrict (local_end_dt_naive session_def target_date) with
      | .error e => .error e.toResolve
      | .ok end_utc_dt => .ok (start_utc_dt, end_utc_dt)

/-- One OHLCV market-data row: a UTC timestamp (minutes) and the
Open/High/Low/Close/Volume columns.  A pandas `DataFrame` with a UTC
`DatetimeIndex` is embedded as a `List Row` in index order. -/
structure Row where
  timestamp : Int
  open_ : Rat
  high : Rat
  low : Rat
  close : Rat
  volume : Rat
deriving DecidableEq

/-- Timestamp order on rows (`sort_index` sorts by it). -/
def Row.le (a b : Row) : Prop := a.timestamp ≤ b.timestamp

instance : DecidableRel Row.le := fun a b => Int.decLe a.timestamp b.timestamp

instance : IsTotal Row Row.le := ⟨fun a b => Int.le_total a.timestamp b.timestamp⟩

instance : IsTrans Row Row.le := ⟨fun _ _ _ h1 h2 => Int.le_trans h1 h2⟩

/-- The calendar dates iterated by the `while current_date <= end_date`
loop of `get_session_data`: every date of `[a, b]` inclusive, ascending. -/
def dateRange (a b : Int) : List Int :=
  (List.range (b + 1 - a).toNat).map (fun i : Nat => a + (i : Int))

/-- One iteration of the per-date loop in `get_session_data` (lines 58-84
of `session_analyzer.py`): resolve the day's UTC boundaries — any failure
is caught and the day skipped — then filter the series to rows inside the
closed interval; an empty filter result is not appended. -/
def sessionDay (db : String → Option Timezone) (sd : SessionDefinition)
    (market_data : List Row) (d : Int) : Option (List Row) :=
  match get_utc_session_boundaries_for_date db sd d with
  | .error _ => none
  | .ok (session_start_utc, session_end_utc) =>
    let daily_market_data := market_data.filter
      (fun r => session_start_utc ≤ r.timestamp && r.timestamp ≤ session_end_utc)
    if daily_market_data.isEmpty then none else some daily_market_data

/-- `SessionAnalyzer.get_session_data`: empty input short-circuits;
otherwise every date in the range is resolved and filtered (failures
skipped), the per-day chunks are concatenated, and the result is sorted
ascending by timestamp (`pd.concat(...)` + `sort_index()`).  Timestamps
are already UTC instants, so the UTC-normalization step is the identity
here. -/
def get_session_data (db : String → Option Timezone) (sd : SessionDefinition)
    (start_date end_date : Int) (market_data : List Row) : List Row :=
  if market_data.isEmpty then [] else
  let all_session_candles := (dateRange start_date end_date).filterMap
    (sessionDay db sd market_data)
  if all_session_candles.isEmpty then [] else
  List.insertionSort Row.le all_session_candles.flatten

/-- The dictionary returned by `analyze_session_details`. -/
structure SessionDetails where
  trend : String
  session_open : Rat
  session_close : Rat
  session_high : Rat
  session_low : Rat
  bullish_candles : Nat
  bearish_candles : Nat
  neutral_candles : Nat
  total_volume : Rat
deriving DecidableEq

/-- `SessionAnalyzer.analyze_session_details`: `None` on an empty frame;
otherwise open of the first row, close of the last, column max/min for
high/low, trend from session open vs close, candle-direction counts, and
the volume sum. -/
def analyze_session_details (session_data : List Row) : Option SessionDetails :=
  match session_data with
  | [] => none
  | r0 :: rest =>
    let open_price := r0.open_
    let close_price := ((r0 :: rest).getLast (List.cons_ne_nil r0 rest)).close
    let high_price := rest.foldl (fun m r => max m r.high) r0.high
    let low_price := rest.foldl (fun m r => min m r.low) r0.low
    let trend := if close_price > open_price then "bullish"
      else if close_price < open_price then "bearish"
      else "flat"
    some {
      trend := trend
      session_open := open_price
      session_close := close_price
      session_high := high_price
      session_low := low_price
      bullish_candles := ((r0 :: rest).filter (fun r => r.close > r.open_)).length
      bearish_candles := ((r0 :: rest).filter (fun r => r.close < r.open_)).length
      neutral_candles := ((r0 :: rest).filter (fun r => r.close == r.open_)).length
      total_volume := ((r0 :: rest).map Row.volume).sum }

/-- A row of the `DataFrame` returned by `get_daily_session_analysis`
(the spec's `DailySessionRecord`). -/
structure DailyRecord where
  date : Int
  session_name : String
  trend : String
  session_open : Rat
  session_close : Rat
  session_high : Rat
  session_low : Rat
  bullish_candles : Nat
  bearish_candles : Nat
  neutral_candles : Nat
  total_volume : Rat
deriving DecidableEq

/-- The UTC calendar date a given instant (minutes) falls on. -/
def utcDay (u : Int) : Int := u / 1440

/-- The UTC calendar date a row's timestamp falls on
(`index.date` of a UTC `DatetimeIndex`). -/
def rowDay (r : Row) : Int := utcDay r.timestamp

/-- `groupby(all_session_data.index.date)`: one group per distinct UTC
calendar date occurring in the rows, keys ascending, each group keeping
the rows (in order) whose timestamp falls on that date. -/
def groupByDay (rows : List Row) : List (Int × List Row) :=
  (List.insertionSort (fun a b => a ≤ b) (rows.map rowDay).dedup).map
    (fun d => (d, rows.filter (fun r => rowDay r == d)))

/-- `SessionAnalyzer.get_daily_session_analysis`: extract once for the
whole range, group the result by each row's UTC calendar date, aggregate
every non-empty group, and keep the records in date order. -/
def get_daily_session_analysis (db : String → Option Timezone)
    (sd : SessionDefinition) (start_date end_date : Int)
    (market_data : List Row) : List DailyRecord :=
  let all_session_data := get_session_data db sd start_date end_date market_data
  if all_session_data.isEmpty then [] else
  (groupByDay all_session_data).filterMap (fun g =>
    if g.2.isEmpty then none else
    match analyze_session_details g.2 with
    | none => none
    | some a => some {
        date := g.1
        session_name := sd.name
        trend := a.trend
        session_open := a.session_open
        session_close := a.session_close
        session_high := a.session_high
        session_low := a.session_low
        bullish_candles := a.bullish_candles
        bearish_candles := a.bearish_candles
        neutral_candles := a.neutral_candles
        total_volume := a.total_volume })

/-! ### Well-formedness of timezones and concrete fixtures -/

/-- Well-formedness of a timezone's transition data: UTC instants whose
local reading resolves uniquely occur in the order of their local
readings.  Every real IANA zone satisfies this (a DST gap skips exactly
the jumped-over local readings, a DST overlap repeats exactly the
re-traversed ones); it can only fail for transition lists whose offsets
jump forward and then land back inside a previously skipped region. -/
def Timezone.LocalizeMono (tz : Timezone) : Prop :=
  ∀ ⦃n1 n2 u1 u2 : Int⦄, tz.localizeStrict n1 = .ok u1 →
    tz.localizeStrict n2 = .ok u2 → n1 < n2 → u1 < u2

/-- A zone with a constant UTC offset (no transitions), e.g. `UTC` itself
(`o = 0`) or `Australia/Sydney` in December (`o = 660`). -/
def fixedTz (o : Int) : Timezone := ⟨o, []⟩

/-- A zone with one spring-forward transition, as `Europe/Berlin` around a
DST start: offset `+60` before UTC instant `60`, `+120` after, so the
local readings `[120, 180)` are skipped. -/
def springTz : Timezone := ⟨60, [(60, 120)]⟩

/-- A concrete timezone database standing in for `pytz`'s registry in the
closed examples below. -/
def dbTest : String → Option Timezone := fun s =>
  if s = "UTC" then some (fixedTz 0)
  else if s = "Plus60" then some (fixedTz 60)
  else if s = "Sydney" then some (fixedTz 660)
  else if s = "Berlin" then some springTz
  else none

/-- A midnight-crossing session in a fixed `+11 h` zone (the hypothetical
Sydney example from `trading_sessions.py`, 22:00-05:00 local). -/
def sdSydney : SessionDefinition :=
  { name := "Hypothetical Midnight Cross", exchange_timezone := "Sydney",
    local_start_time := 1320, local_end_time := 300 }

/-- A degenerate session whose local start and end times coincide. -/
def sdDegenerate : SessionDefinition :=
  { name := "Degenerate", exchange_timezone := "UTC",
    local_start_time := 540, local_end_time := 540 }

/-- A 01:00-04:00 session in the spring-forward zone: on the transition
date the start localizes before the jump and the end after it. -/
def sdDstSpan : SessionDefinition :=
  { name := "DstSpan", exchange_timezone := "Berlin",
    local_start_time := 60, local_end_time := 240 }

/-- A 02:30-05:00 session in the spring-forward zone: on date 0 the local
start time falls into the skipped hour, on later dates it exists. -/
def sdGapOpen : SessionDefinition :=
  { name := "GapOpen", exchange_timezone := "Berlin",
    local_start_time := 150, local_end_time := 300 }

/-- A 09:00-17:30 session in a fixed `+60` zone (the Xetra example). -/
def sdPlus60 : SessionDefinition :=
  { name := "Frankfurt_Xetra_Main", exchange_timezone := "Plus60",
    local_start_time := 540, local_end_time := 1050 }

/-- A 23:00-01:00 UTC session: its resolved window spans two UTC calendar
dates. -/
def sdLateNight : SessionDefinition :=
  { name := "LateNight", exchange_timezone := "UTC",
    local_start_time := 1380, local_end_time := 60 }

/-- Two rows inside `sdLateNight`'s window for date 0: one late on UTC
day 0 (23:30), one early on UTC day 1 (00:30). -/
def lateRows : List Row :=
  [{ timestamp := 1410, open_ := 100, high := 101, low := 100, close := 101,
     volume := 10 },
   { timestamp := 1470, open_ := 101, high := 102, low := 101, close := 102,
     volume := 20 }]

/-- A row inside `sdGapOpen`'s day-1 window `[1470, 1620]`. -/
def gapRow : Row :=
  { timestamp := 1500, open_ := 50, high := 51, low := 49, close := 50,
    volume := 5 }

/-- First row of the spec's worked aggregation example:
`{open: 100, close: 105}`. -/
def exRow1 : Row :=
  { timestamp := 0, open_ := 100, high := 105, low := 100, close := 105,
    volume := 3 }

/-- Second row of the spec's worked aggregation example:
`{open: 105, close: 103}`. -/
def exRow2 : Row :=
  { timestamp := 60, open_ := 105, high := 105, low := 103, close := 103,
    volume := 4 }

/-- The aggregate of `[exRow1, exRow2]`: open 100, close 103, trend
bullish, one bullish and one bearish candle. -/
def exDetails : SessionDetails :=
  { trend := "bullish", session_open := 100, session_close := 103,
    session_high := 105, session_low := 100, bullish_candles := 1,
    bearish_candles := 1, neutral_candles := 0, total_volume := 7 }

/-! ### Characterization of strict localization -/

theorem offsetFrom_mem (base : Int) (ts : List (Int × Int)) (u : Int) :
    offsetFrom base ts u ∈ base :: ts.map Prod.snd := by
  induction ts generalizing base with
  | nil => simp [offsetFrom]
  | cons p rest ih =>
    obtain ⟨t, o⟩ := p
    simp only [offsetFrom]
    by_cases h : u < t
    · simp [h]
    · simp only [if_neg h, List.map_cons, List.mem_cons]
      rcases List.mem_cons.mp (ih o) with h' | h'
      · exact Or.inr (Or.inl h')
      · exact Or.inr (Or.inr h')

theorem offsetAt_mem_offsets (tz : Timezone) (u : Int) :
    tz.offsetAt u ∈ tz.offsets :=
  offsetFrom_mem tz.baseOffset tz.transitions u

theorem mem_localCandidates {tz : Timezone} {n u : Int} :
    u ∈ tz.localCandidates n ↔ u + tz.offsetAt u = n := by
  unfold Timezone.localCandidates
  rw [List.mem_dedup, List.mem_filter]
  constructor
  · rintro ⟨-, h⟩
    exact of_decide_eq_true h
  · intro h
    refine ⟨List.mem_map.mpr ⟨tz.offsetAt u, offsetAt_mem_offsets tz u, by omega⟩, ?_⟩
    exact decide_eq_true h

theorem nodup_localCandidates (tz : Timezone) (n : Int) :
    (tz.localCandidates n).Nodup :=
  List.nodup_dedup _

theorem localizeStrict_ok_iff {tz : Timezone} {n u : Int} :
    tz.localizeStrict n = .ok u ↔
      u + tz.offsetAt u = n ∧ ∀ v : Int, v + tz.offsetAt v = n → v = u := by
  have hnd := nodup_localCandidates tz n
  unfold Timezone.localizeStrict
  rcases hc : tz.localCandidates n with - | ⟨x, - | ⟨y, rest⟩⟩
  · simp only [reduceCtorEq, false_iff, not_and]
    intro hu
    have := mem_localCandidates.mpr hu
    rw [hc] at this
    simp at this
  · constructor
    · intro h
      have hx : x = u := by simpa using h
      subst hx
      have hmem : x ∈ tz.localCandidates n := by rw [hc]; simp
      refine ⟨mem_localCandidates.mp hmem, fun v hv => ?_⟩
      have : v ∈ tz.localCandidates n := mem_localCandidates.mpr hv
      rw [hc] at this
      simpa using this
    · rintro ⟨hu, -⟩
      have : u ∈ tz.localCandidates n := mem_localCandidates.mpr hu
      rw [hc] at this
      simp only [List.mem_singleton] at this
      rw [this]
  · simp only [reduceCtorEq, false_iff, not_and]
    intro hu huniq
    have hx : x ∈ tz.localCandidates n := by rw [hc]; simp
    have hy : y ∈ tz.localCandidates n := by rw [hc]; simp
    have hxu := huniq x (mem_localCandidates.mp hx)
    have hyu := huniq y (mem_localCandidates.mp hy)
    rw [hc] at hnd
    have : x ≠ y := by
      have := List.rel_of_pairwise_cons hnd (List.mem_cons_self y rest)
      exact this
    exact this (hxu.trans hyu.symm)

theorem localizeStrict_nonexistent_iff {tz : Timezone} {n : Int} :
    tz.localizeStrict n = .error .nonexistent ↔ tz.Skipped n := by
  unfold Timezone.localizeStrict Timezone.Skipped
  rcases hc : tz.localCandidates n with - | ⟨x, - | ⟨y, rest⟩⟩
  · simp only [true_iff]
    intro u hu
    have := mem_localCandidates.mpr hu
    rw [hc] at this
    simp at this
  · simp only [reduceCtorEq, false_iff, not_forall]
    refine ⟨x, ?_⟩
    have hx : x ∈ tz.localCandidates n := by rw [hc]; simp
    simpa using mem_localCandidates.mp hx
  · constructor
    · intro h
      exact absurd h (by simp)
    · intro h
      have hx : x ∈ tz.localCandidates n := by rw [hc]; simp
      exact absurd (mem_localCandidates.mp hx) (h x)

theorem localizeStrict_ambiguous_iff {tz : Timezone} {n : Int} :
    tz.localizeStrict n = .error .ambiguous ↔ tz.Repeated n := by
  have hnd := nodup_localCandidates tz n
  unfold Timezone.localizeStrict Timezone.Repeated
  rcases hc : tz.localCandidates n with - | ⟨x, - | ⟨y, rest⟩⟩
  · constructor
    · intro h
      exact absurd h (by simp)
    · rintro ⟨u, v, -, hu, -⟩
      have := mem_localCandidates.mpr hu
      rw [hc] at this
      simp at this
  · constructor
    · intro h
      exact absurd h (by simp)
    · rintro ⟨u, v, huv, hu, hv⟩
      have hu' := mem_localCandidates.mpr hu
      have hv' := mem_localCandidates.mpr hv
      rw [hc] at hu' hv'
      simp only [List.mem_singleton] at hu' hv'
      exact absurd (hu'.trans hv'.symm) huv
  · constructor
    · intro _
      have hx : x ∈ tz.localCandidates n := by rw [hc]; simp
      have hy : y ∈ tz.localCandidates n := by rw [hc]; simp
      rw [hc] at hnd
      exact ⟨x, y, List.rel_of_pairwise_cons hnd (List.mem_cons_self y rest),
        mem_localCandidates.mp hx, mem_localCandidates.mp hy⟩
    · intro _
      rfl

/-- Determinism helper: strict localization is a function of the naive
timestamp, so equal naive timestamps localize identically. -/
theorem localizeStrict_ok_unique {tz : Timezone} {n u v : Int}
    (hu : tz.localizeStrict n = .ok u) (hv : tz.localizeStrict n = .ok v) :
    u = v := by
  rw [hu] at hv
  simpa using hv

/-! ### Characterization of the boundary resolver -/

theorem resolve_eq_of_db {db : String → Option Timezone}
    {sd : SessionDefinition} {tz : Timezone} (d : Int)
    (hdb : db sd.exchange_timezone = some tz) :
    get_utc_session_boundaries_for_date db sd d =
      match tz.localizeStrict (local_start_dt_naive sd d) with
      | .error e => .error e.toResolve
      | .ok s =>
        match tz.localizeStrict (local_end_dt_naive sd d) with
        | .error e => .error e.toResolve
        | .ok e => .ok (s, e) := by
  unfold get_utc_session_boundaries_for_date
  rw [hdb]

theorem resolve_ok_iff {db : String → Option Timezone}
    {sd : SessionDefinition} {tz : Timezone} {d s e : Int}
    (hdb : db sd.exchange_timezone = some tz) :
    get_utc_session_boundaries_for_date db sd d = .ok (s, e) ↔
      tz.localizeStrict (local_start_dt_naive sd d) = .ok s ∧
      tz.localizeStrict (local_end_dt_naive sd d) = .ok e := by
  rw [resolve_eq_of_db d hdb]
  rcases h1 : tz.localizeStrict (local_start_dt_naive sd d) with e1 | s1
  · simp
  · rcases h2 : tz.localizeStrict (local_end_dt_naive sd d) with e2 | s2
    · simp
    · simp [eq_comm, and_comm]

/-! ### Membership characterization of the extractor -/

theorem mem_dateRange {a b d : Int} : d ∈ dateRange a b ↔ a ≤ d ∧ d ≤ b := by
  unfold dateRange
  rw [List.mem_map]
  constructor
  · rintro ⟨i, hi, hd⟩
    rw [List.mem_range] at hi
    omega
  · rintro ⟨h1, h2⟩
    refine ⟨(d - a).toNat, ?_, ?_⟩
    · rw [List.mem_range]
      omega
    · omega

theorem sessionDay_eq_some_iff {db : String → Option Timezone}
    {sd : SessionDefinition} {series : List Row} {d : Int} {chunk : List Row} :
    sessionDay db sd series d = some chunk ↔
      ∃ s e : Int, get_utc_session_boundaries_for_date db sd d = .ok (s, e) ∧
        chunk = series.filter (fun r => s ≤ r.timestamp && r.timestamp ≤ e) ∧
        chunk ≠ [] := by
  unfold sessionDay
  split
  next err heq =>
    constructor
    · intro hsome
      exact absurd hsome (by simp)
    · rintro ⟨s, e, hok, -, -⟩
      rw [heq] at hok
      exact absurd hok (by simp)
  next s0 e0 heq =>
    show (if (series.filter
        (fun r => s0 ≤ r.timestamp && r.timestamp ≤ e0)).isEmpty then none
      else some (series.filter
        (fun r => s0 ≤ r.timestamp && r.timestamp ≤ e0))) = some chunk ↔ _
    by_cases he : (series.filter
        (fun r => s0 ≤ r.timestamp && r.timestamp ≤ e0)).isEmpty
    · rw [if_pos he]
      constructor
      · intro hsome
        exact absurd hsome (by simp)
      · rintro ⟨s, e, hok, hchunk, hne⟩
        rw [heq] at hok
        injection hok with hp
        injection hp with hs he2
        subst hs
        subst he2
        exact absurd (hchunk.trans (List.isEmpty_iff.mp he)) hne
    · rw [if_neg he]
      constructor
      · intro hsome
        refine ⟨s0, e0, heq, (Option.some.inj hsome).symm, ?_⟩
        intro hnil
        exact he (by rw [Option.some.inj hsome, hnil]; rfl)
      · rintro ⟨s, e, hok, hchunk, -⟩
        rw [heq] at hok
        injection hok with hp
        injection hp with hs he2
        subst hs
        subst he2
        rw [hchunk]

theorem mem_chunks_iff {db : String → Option Timezone} {sd : SessionDefinition}
    {a b : Int} {series : List Row} {r : Row} :
    r ∈ ((dateRange a b).filterMap (sessionDay db sd series)).flatten ↔
      r ∈ series ∧ ∃ d s e : Int, a ≤ d ∧ d ≤ b ∧
        get_utc_session_boundaries_for_date db sd d = .ok (s, e) ∧
        s ≤ r.timestamp ∧ r.timestamp ≤ e := by
  rw [List.mem_flatten]
  constructor
  · rintro ⟨chunk, hchunk, hr⟩
    obtain ⟨d, hd, hsome⟩ := List.mem_filterMap.mp hchunk
    obtain ⟨s, e, hok, hchunk_eq, -⟩ := sessionDay_eq_some_iff.mp hsome
    obtain ⟨hd1, hd2⟩ := mem_dateRange.mp hd
    rw [hchunk_eq] at hr
    obtain ⟨hrs, hbool⟩ := List.mem_filter.mp hr
    simp only [Bool.and_eq_true, decide_eq_true_eq] at hbool
    exact ⟨hrs, d, s, e, hd1, hd2, hok, hbool.1, hbool.2⟩
  · rintro ⟨hrs, d, s, e, hd1, hd2, hok, h1, h2⟩
    have hrmem : r ∈ series.filter (fun r => s ≤ r.timestamp && r.timestamp ≤ e) :=
      List.mem_filter.mpr ⟨hrs, by simp [h1, h2]⟩
    refine ⟨series.filter (fun r => s ≤ r.timestamp && r.timestamp ≤ e), ?_, hrmem⟩
    refine List.mem_filterMap.mpr ⟨d, mem_dateRange.mpr ⟨hd1, hd2⟩, ?_⟩
    exact sessionDay_eq_some_iff.mpr ⟨s, e, hok, rfl,
      List.ne_nil_of_mem hrmem⟩

theorem mem_get_session_data {db : String → Option Timezone}
    {sd : SessionDefinition} {a b : Int} {series : List Row} {r : Row} :
    r ∈ get_session_data db sd a b series ↔
      r ∈ series ∧ ∃ d s e : Int, a ≤ d ∧ d ≤ b ∧
        get_utc_session_boundaries_for_date db sd d = .ok (s, e) ∧
        s ≤ r.timestamp ∧ r.timestamp ≤ e := by
  unfold get_session_data
  by_cases hemp : series.isEmpty
  · rw [if_pos hemp]
    rw [List.isEmpty_iff] at hemp
    subst hemp
    simp
  · rw [if_neg hemp]
    by_cases hc : ((dateRange a b).filterMap (sessionDay db sd series)).isEmpty
    · rw [if_pos hc]
      rw [List.isEmpty_iff] at hc
      constructor
      · intro h
        simp at h
      · intro h
        have := mem_chunks_iff.mpr h
        rw [hc] at this
        simp at this
    · rw [if_neg hc, List.mem_insertionSort]
      exact mem_chunks_iff

/-! ### Fixture lemmas -/

theorem fixedTz_offsetAt (o u : Int) : (fixedTz o).offsetAt u = o := rfl

theorem fixedTz_localizeStrict (o n : Int) :
    (fixedTz o).localizeStrict n = .ok (n - o) := by
  refine localizeStrict_ok_iff.mpr ⟨?_, fun v hv => ?_⟩
  · rw [fixedTz_offsetAt]
    omega
  · rw [fixedTz_offsetAt] at hv
    omega

theorem fixedTz_localizeMono (o : Int) : (fixedTz o).LocalizeMono := by
  intro n1 n2 u1 u2 h1 h2 h12
  rw [fixedTz_localizeStrict] at h1 h2
  have e1 : u1 = n1 - o := by
    have := Except.ok.inj h1
    omega
  have e2 : u2 = n2 - o := by
    have := Except.ok.inj h2
    omega
  omega

/-! ### Window separation and duplicate freedom -/

theorem windows_separated {db : String → Option Timezone}
    {sd : SessionDefinition} {tz : Timezone}
    (hdb : db sd.exchange_timezone = some tz) (hmono : tz.LocalizeMono)
    (hle : sd.local_end_time < 1440) {d1 d2 s1 e1 s2 e2 : Int} (h12 : d1 < d2)
    (h1 : get_utc_session_boundaries_for_date db sd d1 = .ok (s1, e1))
    (h2 : get_utc_session_boundaries_for_date db sd d2 = .ok (s2, e2)) :
    e1 < s2 := by
  rw [resolve_ok_iff hdb] at h1 h2
  apply hmono h1.2 h2.1
  unfold local_end_dt_naive local_start_dt_naive combine
  split
  · omega
  · omega

theorem dateRange_pairwise_lt (a b : Int) : (dateRange a b).Pairwise (· < ·) := by
  unfold dateRange
  refine List.Pairwise.map _ ?_ (List.pairwise_lt_range _)
  intro i j hij
  omega

theorem chunks_pairwise_disjoint {db : String → Option Timezone}
    {sd : SessionDefinition} {tz : Timezone} {series : List Row} {a b : Int}
    (hdb : db sd.exchange_timezone = some tz) (hmono : tz.LocalizeMono)
    (hle : sd.local_end_time < 1440) :
    ((dateRange a b).filterMap (sessionDay db sd series)).Pairwise
      List.Disjoint := by
  refine List.Pairwise.filterMap _ ?_ (dateRange_pairwise_lt a b)
  intro d1 d2 h12 c1 hc1 c2 hc2
  rw [Option.mem_def] at hc1 hc2
  obtain ⟨s1, e1, hok1, hchunk1, -⟩ := sessionDay_eq_some_iff.mp hc1
  obtain ⟨s2, e2, hok2, hchunk2, -⟩ := sessionDay_eq_some_iff.mp hc2
  have hsep := windows_separated hdb hmono hle h12 hok1 hok2
  intro r hr1 hr2
  rw [hchunk1] at hr1
  rw [hchunk2] at hr2
  have hb1 := (List.mem_filter.mp hr1).2
  have hb2 := (List.mem_filter.mp hr2).2
  simp only [Bool.and_eq_true, decide_eq_true_eq] at hb1 hb2
  omega

theorem chunks_nodup {db : String → Option Timezone} {sd : SessionDefinition}
    {series : List Row} {a b : Int} (hnd : series.Nodup) :
    ∀ c ∈ (dateRange a b).filterMap (sessionDay db sd series), c.Nodup := by
  intro c hc
  obtain ⟨d, -, hsome⟩ := List.mem_filterMap.mp hc
  obtain ⟨s, e, -, hchunk, -⟩ := sessionDay_eq_some_iff.mp hsome
  rw [hchunk]
  exact hnd.filter _

/-! ### Aggregation helper lemmas -/

theorem foldl_max_init_le (f : Row → Rat) (l : List Row) (x : Rat) :
    x ≤ l.foldl (fun m r => max m (f r)) x := by
  induction l generalizing x with
  | nil => exact le_refl x
  | cons r t ih => exact le_trans (le_max_left x (f r)) (ih (max x (f r)))

theorem foldl_max_mem_le (f : Row → Rat) (l : List Row) (x : Rat) :
    ∀ r ∈ l, f r ≤ l.foldl (fun m r => max m (f r)) x := by
  induction l generalizing x with
  | nil => intro r hr; simp at hr
  | cons q t ih =>
    intro r hr
    rcases List.mem_cons.mp hr with rfl | hr
    · exact le_trans (le_max_right x (f r)) (foldl_max_init_le f t _)
    · exact ih _ r hr

theorem foldl_max_attained (f : Row → Rat) (l : List Row) (x : Rat) :
    l.foldl (fun m r => max m (f r)) x = x ∨
      ∃ r ∈ l, l.foldl (fun m r => max m (f r)) x = f r := by
  induction l generalizing x with
  | nil => exact Or.inl rfl
  | cons q t ih =>
    rcases ih (max x (f q)) with h | ⟨r, hr, h⟩
    · rcases max_choice x (f q) with hm | hm
      · exact Or.inl (by rw [List.foldl_cons, h, hm])
      · exact Or.inr ⟨q, List.mem_cons_self q t, by rw [List.foldl_cons, h, hm]⟩
    · exact Or.inr ⟨r, List.mem_cons_of_mem q hr, by rw [List.foldl_cons, h]⟩

theorem foldl_min_init_le (f : Row → Rat) (l : List Row) (x : Rat) :
    l.foldl (fun m r => min m (f r)) x ≤ x := by
  induction l generalizing x with
  | nil => exact le_refl x
  | cons r t ih => exact le_trans (ih (min x (f r))) (min_le_left x (f r))

theorem foldl_min_le_mem (f : Row → Rat) (l : List Row) (x : Rat) :
    ∀ r ∈ l, l.foldl (fun m r => min m (f r)) x ≤ f r := by
  induction l generalizing x with
  | nil => intro r hr; simp at hr
  | cons q t ih =>
    intro r hr
    rcases List.mem_cons.mp hr with rfl | hr
    · exact le_trans (foldl_min_init_le f t _) (min_le_right x (f r))
    · exact ih _ r hr

theorem foldl_min_attained (f : Row → Rat) (l : List Row) (x : Rat) :
    l.foldl (fun m r => min m (f r)) x = x ∨
      ∃ r ∈ l, l.foldl (fun m r => min m (f r)) x = f r := by
  induction l generalizing x with
  | nil => exact Or.inl rfl
  | cons q t ih =>
    rcases ih (min x (f q)) with h | ⟨r, hr, h⟩
    · rcases min_choice x (f q) with hm | hm
      · exact Or.inl (by rw [List.foldl_cons, h, hm])
      · exact Or.inr ⟨q, List.mem_cons_self q t, by rw [List.foldl_cons, h, hm]⟩
    · exact Or.inr ⟨r, List.mem_cons_of_mem q hr, by rw [List.foldl_cons, h]⟩

theorem candle_partition (l : List Row) :
    (l.filter (fun r => r.close > r.open_)).length +
      (l.filter (fun r => r.close < r.open_)).length +
      (l.filter (fun r => r.close == r.open_)).length = l.length := by
  induction l with
  | nil => rfl
  | cons r t ih =>
    rcases lt_trichotomy r.close r.open_ with h | h | h
    · have hgt : decide (r.close > r.open_) = false :=
        decide_eq_false (not_lt_of_lt h)
      have hlt : decide (r.close < r.open_) = true := decide_eq_true h
      have heq : (r.close == r.open_) = false :=
        beq_eq_false_iff_ne.mpr (ne_of_lt h)
      simp only [List.filter_cons, hgt, hlt, heq, Bool.false_eq_true, if_true, if_false, List.length_cons]
      omega
    · have hgt : decide (r.close > r.open_) = false :=
        decide_eq_false (by rw [h]; exact lt_irrefl _)
      have hlt : decide (r.close < r.open_) = false :=
        decide_eq_false (by rw [h]; exact lt_irrefl _)
      have heq : (r.close == r.open_) = true := beq_iff_eq.mpr h
      simp only [List.filter_cons, hgt, hlt, heq, Bool.false_eq_true, if_true, if_false, List.length_cons]
      omega
    · have hgt : decide (r.close > r.open_) = true := decide_eq_true h
      have hlt : decide (r.close < r.open_) = false :=
        decide_eq_false (not_lt_of_lt h)
      have heq : (r.close == r.open_) = false :=
        beq_eq_false_iff_ne.mpr (ne_of_gt h)
      simp only [List.filter_cons, hgt, hlt, heq, Bool.false_eq_true, if_true, if_false, List.length_cons]
      omega

theorem trend_if_iff (cp op : Rat) :
    ((if cp > op then "bullish" else if cp < op then "bearish" else "flat") =
        "bullish" ↔ op < cp) ∧
    ((if cp > op then "bullish" else if cp < op then "bearish" else "flat") =
        "bearish" ↔ cp < op) ∧
    ((if cp > op then "bullish" else if cp < op then "bearish" else "flat") =
        "flat" ↔ cp = op) := by
  rcases lt_trichotomy cp op with hc | hc | hc
  · rw [if_neg (lt_asymm hc), if_pos hc]
    exact ⟨⟨fun habs => absurd habs (by decide),
        fun habs => absurd habs (lt_asymm hc)⟩,
      ⟨fun _ => hc, fun _ => rfl⟩,
      ⟨fun habs => absurd habs (by decide),
        fun habs => absurd (habs ▸ hc) (lt_irrefl op)⟩⟩
  · rw [if_neg (by rw [hc]; exact lt_irrefl _),
      if_neg (by rw [hc]; exact lt_irrefl _)]
    exact ⟨⟨fun habs => absurd habs (by decide),
        fun habs => absurd habs (by rw [hc]; exact lt_irrefl _)⟩,
      ⟨fun habs => absurd habs (by decide),
        fun habs => absurd habs (by rw [hc]; exact lt_irrefl _)⟩,
      ⟨fun _ => hc, fun _ => rfl⟩⟩
  · rw [if_pos hc]
    exact ⟨⟨fun _ => hc, fun _ => rfl⟩,
      ⟨fun habs => absurd habs (by decide),
        fun habs => absurd habs (lt_asymm hc)⟩,
      ⟨fun habs => absurd habs (by decide),
        fun habs => absurd (habs ▸ hc) (lt_irrefl op)⟩⟩

/-! ### Grouping helper lemmas -/

theorem mem_groupByDay {rows : List Row} {g : Int × List Row}
    (hg : g ∈ groupByDay rows) :
    (∃ r ∈ rows, rowDay r = g.1) ∧
      g.2 = rows.filter (fun r => rowDay r == g.1) := by
  unfold groupByDay at hg
  obtain ⟨d, hd, hgd⟩ := List.mem_map.mp hg
  rw [List.mem_insertionSort, List.mem_dedup] at hd
  obtain ⟨r, hr, hrd⟩ := List.mem_map.mp hd
  exact ⟨⟨r, hr, by rw [hrd, ← hgd]⟩, by rw [← hgd]⟩

theorem mem_get_daily_session_analysis {db : String → Option Timezone}
    {sd : SessionDefinition} {a b : Int} {series : List Row}
    {rec : DailyRecord} (h : rec ∈ get_daily_session_analysis db sd a b series) :
    ∃ g ∈ groupByDay (get_session_data db sd a b series), rec.date = g.1 := by
  unfold get_daily_session_analysis at h
  by_cases hemp : (get_session_data db sd a b series).isEmpty
  · rw [if_pos hemp] at h
    simp at h
  · rw [if_neg hemp] at h
    obtain ⟨g, hg, hsome⟩ := List.mem_filterMap.mp h
    refine ⟨g, hg, ?_⟩
    by_cases hge : g.2.isEmpty
    · rw [if_pos hge] at hsome
      exact absurd hsome (by simp)
    · rw [if_neg hge] at hsome
      rcases ha : analyze_session_details g.2 with - | details
      · rw [ha] at hsome
        exact absurd hsome (by simp)
      · rw [ha] at hsome
        have := Option.some.inj hsome
        rw [← this]

/-! ### Claim theorems -/

/-- **C2**: for a session definition whose timezone name resolves, boundary
resolution never fails with an unknown-zone error; it fails (with a
DST-ambiguity or DST-nonexistence error) exactly when the combined local
start timestamp or the combined local end timestamp falls in a repeated
(clocks back) or skipped (clocks forward) local hour; and on success it
never silently picks a default offset: each returned UTC instant is the
unique instant whose local reading is the combined timestamp. -/
theorem resolver_fails_exactly_on_dst_conflict
    (db : String → Option Timezone) (sd : SessionDefinition) (tz : Timezone)
    (d : Int) (hdb : db sd.exchange_timezone = some tz) :
    get_utc_session_boundaries_for_date db sd d ≠ .error .unknownZone ∧
    ((get_utc_session_boundaries_for_date db sd d = .error .dstAmbiguous ∨
      get_utc_session_boundaries_for_date db sd d = .error .dstNonexistent) ↔
      (tz.Repeated (local_start_dt_naive sd d) ∨
        tz.Skipped (local_start_dt_naive sd d) ∨
        tz.Repeated (local_end_dt_naive sd d) ∨
        tz.Skipped (local_end_dt_naive sd d))) ∧
    (∀ s e : Int, get_utc_session_boundaries_for_date db sd d = .ok (s, e) →
      (s + tz.offsetAt s = local_start_dt_naive sd d ∧
        ∀ u : Int, u + tz.offsetAt u = local_start_dt_naive sd d → u = s) ∧
      (e + tz.offsetAt e = local_end_dt_naive sd d ∧
        ∀ u : Int, u + tz.offsetAt u = local_end_dt_naive sd d → u = e)) := by
  rcases h1 : tz.localizeStrict (local_start_dt_naive sd d) with e1 | s1
  · have hres : get_utc_session_boundaries_for_date db sd d =
        .error e1.toResolve := by
      rw [resolve_eq_of_db d hdb, h1]
    cases e1
    · refine ⟨by rw [hres]; simp [DstError.toResolve], ?_, ?_⟩
      · constructor
        · intro _
          exact Or.inl (localizeStrict_ambiguous_iff.mp h1)
        · intro _
          exact Or.inl (by rw [hres]; rfl)
      · intro s e h
        rw [hres] at h
        exact absurd h (by simp [DstError.toResolve])
    · refine ⟨by rw [hres]; simp [DstError.toResolve], ?_, ?_⟩
      · constructor
        · intro _
          exact Or.inr (Or.inl (localizeStrict_nonexistent_iff.mp h1))
        · intro _
          exact Or.inr (by rw [hres]; rfl)
      · intro s e h
        rw [hres] at h
        exact absurd h (by simp [DstError.toResolve])
  · rcases h2 : tz.localizeStrict (local_end_dt_naive sd d) with e2 | s2
    · have hres : get_utc_session_boundaries_for_date db sd d =
          .error e2.toResolve := by
        rw [resolve_eq_of_db d hdb, h1, h2]
      cases e2
      · refine ⟨by rw [hres]; simp [DstError.toResolve], ?_, ?_⟩
        · constructor
          · intro _
            exact Or.inr (Or.inr (Or.inl (localizeStrict_ambiguous_iff.mp h2)))
          · intro _
            exact Or.inl (by rw [hres]; rfl)
        · intro s e h
          rw [hres] at h
          exact absurd h (by simp [DstError.toResolve])
      · refine ⟨by rw [hres]; simp [DstError.toResolve], ?_, ?_⟩
        · constructor
          · intro _
            exact Or.inr (Or.inr (Or.inr (localizeStrict_nonexistent_iff.mp h2)))
          · intro _
            exact Or.inr (by rw [hres]; rfl)
        · intro s e h
          rw [hres] at h
          exact absurd h (by simp [DstError.toResolve])
    · have hres : get_utc_session_boundaries_for_date db sd d = .ok (s1, s2) := by
        rw [resolve_eq_of_db d hdb, h1, h2]
      refine ⟨by rw [hres]; simp, ?_, ?_⟩
      · constructor
        · rintro (h | h) <;> rw [hres] at h <;> exact absurd h (by simp)
        · rintro (h | h | h | h)
          · exact absurd (localizeStrict_ambiguous_iff.mpr h) (by rw [h1]; simp)
          · exact absurd (localizeStrict_nonexistent_iff.mpr h) (by rw [h1]; simp)
          · exact absurd (localizeStrict_ambiguous_iff.mpr h) (by rw [h2]; simp)
          · exact absurd (localizeStrict_nonexistent_iff.mpr h) (by rw [h2]; simp)
      · intro s e h
        rw [hres] at h
        injection h with hp
        injection hp with hs he
        subst hs
        subst he
        exact ⟨localizeStrict_ok_iff.mp h1, localizeStrict_ok_iff.mp h2⟩

/-- Witness for C2 at the fixed `+60` zone and a concrete date. -/
theorem resolver_fails_exactly_on_dst_conflict_witness :
    get_utc_session_boundaries_for_date dbTest sdPlus60 0 ≠ .error .unknownZone :=
  (resolver_fails_exactly_on_dst_conflict dbTest sdPlus60 (fixedTz 60) 0 rfl).1

/-- **C3 counterexample**: the claimed invariant fails on the code in two
ways.  A session with equal local start and end times (allowed by the
claim's "not less than") resolves to a degenerate window with
`start_utc = end_utc`, so `start_utc < end_utc` fails; and on a
DST-transition date where the start localizes before the jump and the end
after it, the resolved duration differs from the local duration. -/
theorem resolved_window_invariant_counterexample :
    (sdDegenerate.local_start_time ≤ sdDegenerate.local_end_time ∧
      get_utc_session_boundaries_for_date dbTest sdDegenerate 0 =
        .ok (540, 540) ∧
      ¬((540 : Int) < 540)) ∧
    (sdDstSpan.local_start_time ≤ sdDstSpan.local_end_time ∧
      get_utc_session_boundaries_for_date dbTest sdDstSpan 0 = .ok (0, 120) ∧
      (120 : Int) - 0 ≠
        (sdDstSpan.local_end_time : Int) - (sdDstSpan.local_start_time : Int)) :=
  ⟨⟨by decide, rfl, by decide⟩, ⟨by decide, rfl, by decide⟩⟩

/-- **C3 amended**: for a well-formed timezone (strict localization
monotone, true of real IANA zones) and `local_start_time` below 24 h,
whenever resolution succeeds: `start_utc < end_utc` holds as soon as the
local start and end times differ — covering sessions with
`local_start_time < local_end_time`, midnight-crossing sessions, and
DST-transition dates alike; and when additionally
`local_start_time < local_end_time` and the start and end instants carry
the same UTC offset (no DST transition between them),
`end_utc - start_utc = local_end_time - local_start_time`.  (With equal
local times the window is degenerate, and across a transition the duration
is not preserved — the counterexample above.) -/
theorem resolved_window_bounds
    (db : String → Option Timezone) (sd : SessionDefinition) (tz : Timezone)
    (d s e : Int) (hdb : db sd.exchange_timezone = some tz)
    (hmono : tz.LocalizeMono)
    (hok : get_utc_session_boundaries_for_date db sd d = .ok (s, e))
    (hls : sd.local_start_time < 1440) :
    (sd.local_start_time ≠ sd.local_end_time → s < e) ∧
    (sd.local_start_time < sd.local_end_time →
      tz.offsetAt s = tz.offsetAt e →
      e - s = (sd.local_end_time : Int) - (sd.local_start_time : Int)) := by
  rw [resolve_ok_iff hdb] at hok
  obtain ⟨hs, he⟩ := hok
  constructor
  · intro hne
    apply hmono hs he
    simp only [local_start_dt_naive, local_end_dt_naive, combine]
    split
    · omega
    · omega
  · intro hlt hoff
    have hs1 := (localizeStrict_ok_iff.mp hs).1
    have he1 := (localizeStrict_ok_iff.mp he).1
    simp only [local_start_dt_naive, local_end_dt_naive, combine] at hs1 he1
    rw [if_neg (by omega)] at he1
    omega

/-- Witness for the amended C3 at the Xetra-style session in a fixed
`+60` zone. -/
theorem resolved_window_bounds_witness :
    (sdPlus60.local_start_time ≠ sdPlus60.local_end_time → (480 : Int) < 990) ∧
    (sdPlus60.local_start_time < sdPlus60.local_end_time →
      (fixedTz 60).offsetAt 480 = (fixedTz 60).offsetAt 990 →
      (990 : Int) - 480 =
        (sdPlus60.local_end_time : Int) - (sdPlus60.local_start_time : Int)) :=
  resolved_window_bounds dbTest sdPlus60 (fixedTz 60) 0 480 990
    rfl (fixedTz_localizeMono 60) rfl (by decide)

/-- **C4**: extraction returns exactly the rows of the input series whose
UTC timestamp lies in the closed interval `[start_utc, end_utc]` of the
resolved window of some calendar date in `[start_date, end_date]`
inclusive. -/
theorem extractor_membership_characterization :
    ∀ (db : String → Option Timezone) (sd : SessionDefinition) (a b : Int)
      (series : List Row) (r : Row),
      r ∈ get_session_data db sd a b series ↔
        r ∈ series ∧ ∃ d s e : Int, a ≤ d ∧ d ≤ b ∧
          get_utc_session_boundaries_for_date db sd d = .ok (s, e) ∧
          s ≤ r.timestamp ∧ r.timestamp ≤ e :=
  fun _ _ _ _ _ _ => mem_get_session_data

/-- **C5 counterexample**: for the midnight-crossing Sydney example from
the source (22:00-05:00 local, fixed `+11 h`), the resolved window for
date 0 is `(660, 1080)` and both UTC instants fall on the *same* UTC
calendar date, so the end instant's date is not the day after the start
instant's date. -/
theorem midnight_cross_utc_end_date_counterexample :
    sdSydney.local_end_time < sdSydney.local_start_time ∧
    get_utc_session_boundaries_for_date dbTest sdSydney 0 = .ok (660, 1080) ∧
    utcDay 1080 = utcDay 660 :=
  ⟨by decide, rfl, by decide⟩

/-- **C5 amended**: for a midnight-crossing session, the resolver anchors
the *local* end timestamp to `target_date + 1`: on success, the start
instant's local calendar date is `target_date` and the end instant's local
calendar date is `target_date + 1` (where an instant's local reading is
`u + offsetAt u`).  The end instant's *UTC* date can coincide with the
start instant's UTC date. -/
theorem midnight_cross_local_end_anchored_next_day
    (db : String → Option Timezone) (sd : SessionDefinition) (tz : Timezone)
    (d s e : Int) (hdb : db sd.exchange_timezone = some tz)
    (hcross : sd.local_end_time < sd.local_start_time)
    (hls : sd.local_start_time < 1440)
    (hok : get_utc_session_boundaries_for_date db sd d = .ok (s, e)) :
    utcDay (s + tz.offsetAt s) = d ∧ utcDay (e + tz.offsetAt e) = d + 1 := by
  rw [resolve_ok_iff hdb] at hok
  have hs := (localizeStrict_ok_iff.mp hok.1).1
  have he := (localizeStrict_ok_iff.mp hok.2).1
  simp only [local_start_dt_naive, local_end_dt_naive, combine] at hs he
  rw [if_pos hcross] at he
  unfold utcDay
  constructor <;> omega

/-- Witness for the amended C5 at the Sydney example. -/
theorem midnight_cross_local_end_anchored_next_day_witness :
    utcDay (660 + (fixedTz 660).offsetAt 660) = 0 ∧
    utcDay (1080 + (fixedTz 660).offsetAt 1080) = 0 + 1 :=
  midnight_cross_local_end_anchored_next_day dbTest sdSydney (fixedTz 660)
    0 660 1080 rfl (by decide) (by decide) rfl

/-- **C10**: construction validates only the timezone field: for any
session whose timezone name resolves in the database, `__post_init__`
succeeds regardless of the time-of-day fields and the name; and equal
start/end times later resolve to a degenerate window whose start and end
UTC instants coincide. -/
theorem construction_validates_only_timezone
    (db : String → Option Timezone) (sd : SessionDefinition) (tz : Timezone)
    (hdb : db sd.exchange_timezone = some tz) :
    sd.post_init db = .ok sd ∧
    (sd.local_start_time = sd.local_end_time →
      ∀ d s e : Int,
        get_utc_session_boundaries_for_date db sd d = .ok (s, e) → s = e) := by
  constructor
  · unfold SessionDefinition.post_init
    rw [hdb]
  · intro heq d s e hok
    rw [resolve_ok_iff hdb] at hok
    have hne : local_end_dt_naive sd d = local_start_dt_naive sd d := by
      unfold local_end_dt_naive local_start_dt_naive
      rw [if_neg (by omega), heq]
    rw [hne] at hok
    exact localizeStrict_ok_unique hok.1 hok.2

/-- Witness for C10 at the degenerate session. -/
theorem construction_validates_only_timezone_witness :
    sdDegenerate.post_init dbTest = .ok sdDegenerate ∧
    (sdDegenerate.local_start_time = sdDegenerate.local_end_time →
      ∀ d s e : Int,
        get_utc_session_boundaries_for_date dbTest sdDegenerate d = .ok (s, e) →
        s = e) :=
  construction_validates_only_timezone dbTest sdDegenerate (fixedTz 0) rfl

/-- **C9**: empty input is never an error: extracting from an empty series
returns an empty series; a range in which no date yields any matching row
returns an empty series; and every emitted daily record is backed by at
least one extracted row on its date (a day with zero matching rows
produces no record). -/
theorem empty_input_yields_empty_output (db : String → Option Timezone)
    (sd : SessionDefinition) (a b : Int) (series : List Row) :
    get_session_data db sd a b [] = [] ∧
    ((∀ r ∈ series, ∀ d s e : Int, a ≤ d → d ≤ b →
        get_utc_session_boundaries_for_date db sd d = .ok (s, e) →
        ¬(s ≤ r.timestamp ∧ r.timestamp ≤ e)) →
      get_session_data db sd a b series = []) ∧
    ∀ rec ∈ get_daily_session_analysis db sd a b series,
      ∃ r ∈ get_session_data db sd a b series, rowDay r = rec.date := by
  refine ⟨rfl, ?_, ?_⟩
  · intro hno
    rw [List.eq_nil_iff_forall_not_mem]
    intro r hr
    rw [mem_get_session_data] at hr
    obtain ⟨hrs, d, s, e, h1, h2, hok, hw1, hw2⟩ := hr
    exact hno r hrs d s e h1 h2 hok ⟨hw1, hw2⟩
  · intro rec hrec
    obtain ⟨g, hg, hdate⟩ := mem_get_daily_session_analysis hrec
    obtain ⟨⟨r, hr, hrd⟩, -⟩ := mem_groupByDay hg
    exact ⟨r, hr, by rw [hrd, hdate]⟩

/-- Witness for C9 at a concrete session and series. -/
theorem empty_input_yields_empty_output_witness :
    get_session_data dbTest sdLateNight 0 0 [] = [] ∧
    ((∀ r ∈ lateRows, ∀ d s e : Int, 0 ≤ d → d ≤ 0 →
        get_utc_session_boundaries_for_date dbTest sdLateNight d = .ok (s, e) →
        ¬(s ≤ r.timestamp ∧ r.timestamp ≤ e)) →
      get_session_data dbTest sdLateNight 0 0 lateRows = []) ∧
    ∀ rec ∈ get_daily_session_analysis dbTest sdLateNight 0 0 lateRows,
      ∃ r ∈ get_session_data dbTest sdLateNight 0 0 lateRows,
        rowDay r = rec.date :=
  empty_input_yields_empty_output dbTest sdLateNight 0 0 lateRows

/-- **C7**: a boundary-resolution failure on one date of the range is never
fatal: the extraction result is exactly characterized with that date
contributing no rows — a row is extracted iff it belongs to the series and
matches the resolved window of some *other* date of the range. -/
theorem per_day_resolution_failure_skipped (db : String → Option Timezone)
    (sd : SessionDefinition) (a b d0 : Int) (series : List Row)
    (err : ResolveError) (hd0a : a ≤ d0) (hd0b : d0 ≤ b)
    (herr : get_utc_session_boundaries_for_date db sd d0 = .error err) :
    ∀ r : Row, r ∈ get_session_data db sd a b series ↔
      r ∈ series ∧ ∃ d s e : Int, a ≤ d ∧ d ≤ b ∧ d ≠ d0 ∧
        get_utc_session_boundaries_for_date db sd d = .ok (s, e) ∧
        s ≤ r.timestamp ∧ r.timestamp ≤ e := by
  intro r
  rw [mem_get_session_data]
  constructor
  · rintro ⟨hrs, d, s, e, h1, h2, hok, hw1, hw2⟩
    refine ⟨hrs, d, s, e, h1, h2, ?_, hok, hw1, hw2⟩
    rintro rfl
    rw [herr] at hok
    exact absurd hok (by simp)
  · rintro ⟨hrs, d, s, e, h1, h2, -, hok, hw1, hw2⟩
    exact ⟨hrs, d, s, e, h1, h2, hok, hw1, hw2⟩

/-- Witness for C7: date 0 hard-fails (its local start time falls in the
skipped hour of the spring-forward zone) while the row matching date 1's
window is still extracted. -/
theorem per_day_resolution_failure_skipped_witness :
    gapRow ∈ get_session_data dbTest sdGapOpen 0 1 [gapRow] ↔
      gapRow ∈ [gapRow] ∧ ∃ d s e : Int, 0 ≤ d ∧ d ≤ 1 ∧ d ≠ 0 ∧
        get_utc_session_boundaries_for_date dbTest sdGapOpen d = .ok (s, e) ∧
        s ≤ gapRow.timestamp ∧ gapRow.timestamp ≤ e :=
  per_day_resolution_failure_skipped dbTest sdGapOpen 0 1 0 [gapRow]
    .dstNonexistent (by decide) (by decide) rfl gapRow

/-- **C1**: the daily report builder does *not* attribute a
midnight-crossing session's rows to a single record anchored at the
session's date: run on the 23:00-01:00 UTC session for date 0 with one row
late on UTC day 0 and one early on UTC day 1 (both inside the single
resolved window `[1380, 1500]`), it groups by each row's own UTC date and
emits *two* `DailyRecord`s, dated 0 and 1, where the claim requires one
record anchored at date 0. -/
theorem builder_splits_midnight_crossing_session :
    sdLateNight.local_end_time < sdLateNight.local_start_time ∧
    get_utc_session_boundaries_for_date dbTest sdLateNight 0 =
      .ok (1380, 1500) ∧
    (get_session_data dbTest sdLateNight 0 0 lateRows).map Row.timestamp =
      [1410, 1470] ∧
    (get_daily_session_analysis dbTest sdLateNight 0 0 lateRows).map
      DailyRecord.date = [0, 1] ∧
    (get_daily_session_analysis dbTest sdLateNight 0 0 lateRows).length = 2 :=
  ⟨by decide, rfl, rfl, rfl, rfl⟩

/-- **C6**: for a well-formed timezone (strict localization monotone) and a
duplicate-free input series, the extracted series is sorted ascending by
timestamp and contains no duplicate rows, for every date range and
regardless of the input's row order — in particular consecutive dates'
windows never share a row. -/
theorem extractor_sorted_and_nodup (db : String → Option Timezone)
    (sd : SessionDefinition) (tz : Timezone) (a b : Int) (series : List Row)
    (hdb : db sd.exchange_timezone = some tz) (hmono : tz.LocalizeMono)
    (hle : sd.local_end_time < 1440) (hnd : series.Nodup) :
    List.Pairwise (fun r1 r2 : Row => r1.timestamp ≤ r2.timestamp)
      (get_session_data db sd a b series) ∧
    (get_session_data db sd a b series).Nodup := by
  unfold get_session_data
  by_cases hemp : series.isEmpty
  · rw [if_pos hemp]
    exact ⟨List.Pairwise.nil, List.nodup_nil⟩
  · rw [if_neg hemp]
    by_cases hc : ((dateRange a b).filterMap (sessionDay db sd series)).isEmpty
    · rw [if_pos hc]
      exact ⟨List.Pairwise.nil, List.nodup_nil⟩
    · rw [if_neg hc]
      constructor
      · exact List.sorted_insertionSort Row.le _
      · have hflat :
            ((dateRange a b).filterMap (sessionDay db sd series)).flatten.Nodup :=
          List.nodup_flatten.mpr
            ⟨chunks_nodup hnd, chunks_pairwise_disjoint hdb hmono hle⟩
        exact ((List.perm_insertionSort Row.le _).nodup_iff).mpr hflat

/-- Witness for C6 at a concrete session and series (input given in
timestamp order here; the theorem quantifies over arbitrary series). -/
theorem extractor_sorted_and_nodup_witness :
    List.Pairwise (fun r1 r2 : Row => r1.timestamp ≤ r2.timestamp)
      (get_session_data dbTest sdLateNight 0 0 lateRows) ∧
    (get_session_data dbTest sdLateNight 0 0 lateRows).Nodup :=
  extractor_sorted_and_nodup dbTest sdLateNight (fixedTz 0) 0 0 lateRows
    rfl (fixedTz_localizeMono 0) (by decide) (by decide)

/-- **C8**: for every non-empty list of day rows, the aggregate has open
equal to the first row's open and close equal to the last row's close,
high equal to the maximum of the rows' highs and low equal to the minimum
of the rows' lows, trend `"bullish"`/`"bearish"`/`"flat"` exactly as close
compares to open, candle-direction counts classifying every row by its own
close vs open and summing to the number of rows, and total volume equal to
the sum of the rows' volumes. -/
theorem aggregator_record_properties (r0 : Row) (rest : List Row)
    (details : SessionDetails)
    (h : analyze_session_details (r0 :: rest) = some details) :
    details.session_open = r0.open_ ∧
    details.session_close =
      ((r0 :: rest).getLast (List.cons_ne_nil r0 rest)).close ∧
    (∀ r ∈ r0 :: rest, r.high ≤ details.session_high) ∧
    (∃ r ∈ r0 :: rest, details.session_high = r.high) ∧
    (∀ r ∈ r0 :: rest, details.session_low ≤ r.low) ∧
    (∃ r ∈ r0 :: rest, details.session_low = r.low) ∧
    (details.trend = "bullish" ↔ details.session_open < details.session_close) ∧
    (details.trend = "bearish" ↔ details.session_close < details.session_open) ∧
    (details.trend = "flat" ↔ details.session_close = details.session_open) ∧
    details.total_volume = ((r0 :: rest).map Row.volume).sum ∧
    details.bullish_candles =
      ((r0 :: rest).filter (fun r => r.close > r.open_)).length ∧
    details.bearish_candles =
      ((r0 :: rest).filter (fun r => r.close < r.open_)).length ∧
    details.neutral_candles =
      ((r0 :: rest).filter (fun r => r.close == r.open_)).length ∧
    details.bullish_candles + details.bearish_candles +
      details.neutral_candles = (r0 :: rest).length := by
  simp only [analyze_session_details] at h
  have hd := Option.some.inj h
  subst hd
  refine ⟨rfl, rfl, ?_, ?_, ?_, ?_, ?_, ?_, ?_, rfl, rfl, rfl, rfl,
    candle_partition (r0 :: rest)⟩
  · intro r hr
    rcases List.mem_cons.mp hr with rfl | hr
    · exact foldl_max_init_le Row.high rest r.high
    · exact foldl_max_mem_le Row.high rest r0.high r hr
  · rcases foldl_max_attained Row.high rest r0.high with hm | ⟨r, hr, hm⟩
    · exact ⟨r0, List.mem_cons_self r0 rest, hm⟩
    · exact ⟨r, List.mem_cons_of_mem r0 hr, hm⟩
  · intro r hr
    rcases List.mem_cons.mp hr with rfl | hr
    · exact foldl_min_init_le Row.low rest r.low
    · exact foldl_min_le_mem Row.low rest r0.low r hr
  · rcases foldl_min_attained Row.low rest r0.low with hm | ⟨r, hr, hm⟩
    · exact ⟨r0, List.mem_cons_self r0 rest, hm⟩
    · exact ⟨r, List.mem_cons_of_mem r0 hr, hm⟩
  · exact (trend_if_iff
      (((r0 :: rest).getLast (List.cons_ne_nil r0 rest)).close) r0.open_).1
  · exact (trend_if_iff
      (((r0 :: rest).getLast (List.cons_ne_nil r0 rest)).close) r0.open_).2.1
  · exact (trend_if_iff
      (((r0 :: rest).getLast (List.cons_ne_nil r0 rest)).close) r0.open_).2.2

/-- Witness for C8 at the spec's worked example
`[{open:100, close:105}, {open:105, close:103}]`. -/
theorem aggregator_record_properties_witness :
    exDetails.session_open = exRow1.open_ ∧
    exDetails.session_close =
      ((exRow1 :: [exRow2]).getLast (List.cons_ne_nil exRow1 [exRow2])).close ∧
    (∀ r ∈ exRow1 :: [exRow2], r.high ≤ exDetails.session_high) ∧
    (∃ r ∈ exRow1 :: [exRow2], exDetails.session_high = r.high) ∧
    (∀ r ∈ exRow1 :: [exRow2], exDetails.session_low ≤ r.low) ∧
    (∃ r ∈ exRow1 :: [exRow2], exDetails.session_low = r.low) ∧
    (exDetails.trend = "bullish" ↔
      exDetails.session_open < exDetails.session_close) ∧
    (exDetails.trend = "bearish" ↔
      exDetails.session_close < exDetails.session_open) ∧
    (exDetails.trend = "flat" ↔
      exDetails.session_close = exDetails.session_open) ∧
    exDetails.total_volume = ((exRow1 :: [exRow2]).map Row.volume).sum ∧
    exDetails.bullish_candles =
      ((exRow1 :: [exRow2]).filter (fun r => r.close > r.open_)).length ∧
    exDetails.bearish_candles =
      ((exRow1 :: [exRow2]).filter (fun r => r.close < r.open_)).length ∧
    exDetails.neutral_candles =
      ((exRow1 :: [exRow2]).filter (fun r => r.close == r.open_)).length ∧
    exDetails.bullish_candles + exDetails.bearish_candles +
      exDetails.neutral_candles = (exRow1 :: [exRow2]).length :=
  aggregator_record_properties exRow1 [exRow2] exDetails
    (by norm_num [analyze_session_details, exRow1, exRow2, exDetails])

end PatternStats
